import Mathlib

/-!
Music player (`script.js`): a shallow embedding of the player state machine

The handlers of `script.js` are embedded as functions on an explicit `Player` value that
gathers the script's mutable cells: the `playerState` object, the cells of the media element
`audioPlayer` that the script reads or writes, and the value of the volume slider
`volumeRange`.  Calls of the media element's methods (`play`, `pause`, `load`) are recorded in
a log, oldest first.

A finite JavaScript number is given by its rational value; `NaN` and the two infinities are
separate constructors where the code can meet them (`formatTime`).  Quotients that the script
computes (`seconds / 60`, `volumeRange.value / 100`) are rounded to the nearest double, the
remainder and `Math.floor` are exact as they are on doubles, and numbers are printed as
`Number::toString` prints them.  Elapsed times and the draw of `Math.random()` in the
navigation handlers are rationals, and the product with the playlist length is taken exactly.

A handler that can throw returns `Option`; `none` is an uncaught exception: the `TypeError` of
reading a property of `tracks[i]` when `i` is not a position of `tracks`, or the
`IndexSizeError` of the media element for a volume outside `[0,1]`.  Writes to the markup
(labels, icons, CSS classes) and `console` output carry no state the handlers read back, and
are left out.
-/

namespace MusicPlayer

/-! ## JavaScript numbers as far as `formatTime` needs them -/

/-- A JavaScript number: `NaN`, the two infinities, or a finite value. -/
inductive JSNum where
  | nan
  | posInf
  | negInf
  | fin (q : ℚ)
  deriving DecidableEq

/-- The integral results of `Math.floor`: `NaN`, an infinity, or an integer. -/
inductive JSFloor where
  | nan
  | posInf
  | negInf
  | int (z : ℤ)
  deriving DecidableEq

/-- The global `isNaN` on a number. -/
def jsIsNaN : JSNum → Bool
  | .nan => true
  | _ => false

/-- The test `seconds === Infinity`. -/
def isPosInfinity : JSNum → Bool
  | .posInf => true
  | _ => false

/-- Rounding to the nearest integer, a tie going to the even one. -/
def roundHalfEven (x : ℚ) : ℤ :=
  if x - (⌊x⌋ : ℚ) < 1 / 2 then ⌊x⌋
  else if 1 / 2 < x - (⌊x⌋ : ℚ) then ⌊x⌋ + 1
  else if ⌊x⌋ % 2 = 0 then ⌊x⌋ else ⌊x⌋ + 1

/-- The exponent of the spacing of doubles around `q`: 52 below the binary exponent of `q`,
and -1074 in the subnormal range. -/
def ulpExp (q : ℚ) : ℤ :=
  max (Int.log 2 |q| - 52) (-1074)

/-- The double nearest to `q` (round to nearest, ties to even), as a rational.  It is used
on quotients of a double by 60 or 100, which stay below the largest double. -/
def toDouble (q : ℚ) : ℚ :=
  (roundHalfEven (q / 2 ^ ulpExp q) : ℚ) * 2 ^ ulpExp q

/-- The quotient `x / 60`, rounded to a double: an infinity keeps its sign, `NaN` stays
`NaN`. -/
def divSixty : JSNum → JSNum
  | .nan => .nan
  | .posInf => .posInf
  | .negInf => .negInf
  | .fin q => .fin (toDouble (q / 60))

/-- Rounding towards zero, as the remainder operator uses it. -/
def truncQ (q : ℚ) : ℤ :=
  if 0 ≤ q then ⌊q⌋ else ⌈q⌉

/-- The remainder `x % 60`, which is exact on doubles: the result has the sign of the
dividend; an infinite or `NaN` dividend gives `NaN`. -/
def remSixty : JSNum → JSNum
  | .fin q => .fin (q - 60 * (truncQ (q / 60) : ℚ))
  | _ => .nan

/-- The function `Math.floor`. -/
def mathFloor : JSNum → JSFloor
  | .nan => .nan
  | .posInf => .posInf
  | .negInf => .negInf
  | .fin q => .int ⌊q⌋

/-- The comparison `secs < 10`; a comparison with `NaN` is false. -/
def ltTen : JSFloor → Bool
  | .nan => false
  | .posInf => false
  | .negInf => true
  | .int z => decide (z < 10)

/-- One step of the search for the shortest decimal that rounds to the double `z`: the
two decimals with `k` significant digits next to `z`, if one of them rounds to `z`; of two
that do, the nearer one, and on a tie the one with the even last digit. -/
def shortestAt (z k : ℕ) : Option ℕ :=
  let p := 10 ^ ((Nat.toDigits 10 z).length - k)
  let lo := z / p * p
  let hi := lo + p
  if toDouble (lo : ℚ) = (z : ℚ) ∧ toDouble (hi : ℚ) = (z : ℚ) then
    (if z - lo < hi - z then some lo
     else if hi - z < z - lo then some hi
     else if z / p % 2 = 0 then some lo else some hi)
  else if toDouble (lo : ℚ) = (z : ℚ) then some lo
  else if toDouble (hi : ℚ) = (z : ℚ) then some hi
  else none

/-- The shortest decimal that rounds to the double `z`, with its number of significant
digits, searched from `k` digits upwards; 17 digits always suffice. -/
def shortestFrom (z : ℕ) : ℕ → ℕ → ℕ × ℕ
  | 0, k => (z, k)
  | fuel + 1, k =>
    match shortestAt z k with
    | some v => (v, k)
    | none => shortestFrom z fuel (k + 1)

/-- Exponent notation of the decimal `v` with `k` significant digits: the first digit, a
point and the other digits if there are any, and the decimal exponent. -/
def expNotation (v k : ℕ) : String :=
  match (Nat.toDigits 10 v).take k with
  | [] => ""
  | d :: rest =>
    String.mk (d :: (if rest = [] then [] else '.' :: rest)) ++ "e+" ++
      Nat.repr ((Nat.toDigits 10 v).length - 1)

/-- The string of a non-negative integral double (`Number::toString`): the shortest
decimal that rounds to it, written out up to 21 digits and in exponent notation beyond. -/
def natToString (z : ℕ) : String :=
  if (shortestFrom z 17 1).1 < 10 ^ 21 then Nat.repr (shortestFrom z 17 1).1
  else expNotation (shortestFrom z 17 1).1 (shortestFrom z 17 1).2

/-- The string of an integral double, as a template literal prints it. -/
def intToString : ℤ → String
  | .ofNat m => natToString m
  | .negSucc m => "-" ++ natToString (m + 1)

/-- Conversion of a `Math.floor` result to a string inside a template literal. -/
def floorToString : JSFloor → String
  | .nan => "NaN"
  | .posInf => "Infinity"
  | .negInf => "-Infinity"
  | .int z => intToString z

/-- The function `formatTime(seconds)`. -/
def formatTime (seconds : JSNum) : String :=
  if jsIsNaN seconds || isPosInfinity seconds then "0:00"
  else
    let mins := mathFloor (divSixty seconds)
    let secs := mathFloor (remSixty seconds)
    floorToString mins ++ ":" ++ (if ltTen secs then "0" else "") ++ floorToString secs

/-- The format in the specification's words: minutes unpadded, a colon, and the seconds
within the minute written with exactly two decimal digits. -/
def specMSS (n : ℕ) : String :=
  Nat.repr (n / 60) ++ ":" ++
    String.mk [Nat.digitChar (n % 60 / 10), Nat.digitChar (n % 60 % 10)]

/-! ## Playlist and player state -/

/-- A record of the array `tracks`. -/
structure Track where
  title : String
  artist : String
  duration : ℕ
  url : String
  deriving DecidableEq

/-- The array `tracks` of the script. -/
def tracks : List Track :=
  [ { title := "Summer Vibes", artist := "The Sunny Band", duration := 225,
      url := "https://www.soundhelix.com/examples/mp3/SoundHelix-Song-1.mp3" },
    { title := "Night Drive", artist := "Electric Dreams", duration := 252,
      url := "https://www.soundhelix.com/examples/mp3/SoundHelix-Song-2.mp3" },
    { title := "Ocean Waves", artist := "Coastal Vibes", duration := 208,
      url := "https://www.soundhelix.com/examples/mp3/SoundHelix-Song-3.mp3" },
    { title := "Electric Pulse", artist := "Synth Masters", duration := 240,
      url := "https://www.soundhelix.com/examples/mp3/SoundHelix-Song-1.mp3" },
    { title := "Midnight Echo", artist := "Dark Moon", duration := 236,
      url := "https://www.soundhelix.com/examples/mp3/SoundHelix-Song-2.mp3" } ]

/-- The object `playerState`.  Its field `playedTracks` is never read or written by the
script and is left out. -/
structure PlayerState where
  currentTrackIndex : ℤ
  isPlaying : Bool
  shuffle : Bool
  repeatMode : ℕ
  autoplay : Bool
  deriving DecidableEq

/-- A method call the script makes on the media element. -/
inductive DeviceCall where
  | play
  | pause
  | load
  deriving DecidableEq

/-- What `audioPlayer.play()` does at the call: return a promise, return `undefined`
(hosts without promise support), or throw. -/
inductive PlayReturn where
  | promise
  | undefined
  | throws
  deriving DecidableEq

/-- The media element `audioPlayer`, as far as the script touches it: the cells `src`,
`currentTime` and `volume`, how `play()` answers, the number of play promises not yet settled,
and the method calls made so far, oldest first. -/
structure AudioPlayer where
  src : String
  currentTime : ℚ
  volume : ℚ
  playReturn : PlayReturn
  pendingPlays : ℕ
  calls : List DeviceCall
  deriving DecidableEq

/-- All mutable cells of the script: `playerState`, `audioPlayer` and the value of the
slider `volumeRange`. -/
structure Player where
  playerState : PlayerState
  audioPlayer : AudioPlayer
  volumeRange : ℤ
  deriving DecidableEq

/-- The lookup `tracks[i]`; `none` is `undefined`. -/
def trackAt (tracks : List Track) (i : ℤ) : Option Track :=
  if 0 ≤ i then tracks[i.toNat]? else none

/-- The remainder `a % b` on integers: the sign follows the dividend, and a zero divisor
gives `NaN`, here `none`. -/
def jsRem (a b : ℤ) : Option ℤ :=
  if b = 0 then none else some (Int.tmod a b)

/-! ## Audio control -/

/-- The function `playAudio`: it calls `audioPlayer.play()`.  A returned promise stays
pending until one of the callbacks `onPlayFulfilled` or `onPlayRejected` runs; a synchronous
throw is caught and only logged. -/
def playAudio (p : Player) : Player :=
  match p.audioPlayer.playReturn with
  | .promise =>
    { p with audioPlayer := { p.audioPlayer with
        calls := p.audioPlayer.calls ++ [DeviceCall.play],
        pendingPlays := p.audioPlayer.pendingPlays + 1 } }
  | .undefined =>
    { p with audioPlayer := { p.audioPlayer with
        calls := p.audioPlayer.calls ++ [DeviceCall.play] } }
  | .throws =>
    { p with audioPlayer := { p.audioPlayer with
        calls := p.audioPlayer.calls ++ [DeviceCall.play] } }

/-- The function `pauseAudio`. -/
def pauseAudio (p : Player) : Player :=
  { p with
    audioPlayer := { p.audioPlayer with calls := p.audioPlayer.calls ++ [DeviceCall.pause] },
    playerState := { p.playerState with isPlaying := false } }

/-- The function `togglePlay`. -/
def togglePlay (p : Player) : Player :=
  if p.playerState.isPlaying then pauseAudio p else playAudio p

/-- The function `onAudioPlay`, listener of the element's `play` event. -/
def onAudioPlay (p : Player) : Player :=
  { p with playerState := { p.playerState with isPlaying := true } }

/-- The function `onAudioPause`, listener of the element's `pause` event. -/
def onAudioPause (p : Player) : Player :=
  { p with playerState := { p.playerState with isPlaying := false } }

/-- The function `handleAudioError`. -/
def handleAudioError (p : Player) : Player :=
  pauseAudio p

/-- The `.then` callback of `playAudio`: the play promise was fulfilled. -/
def onPlayFulfilled (p : Player) : Player :=
  { p with
    audioPlayer := { p.audioPlayer with pendingPlays := p.audioPlayer.pendingPlays - 1 },
    playerState := { p.playerState with isPlaying := true } }

/-- The `.catch` callback of `playAudio`: the play promise was rejected. -/
def onPlayRejected (p : Player) : Player :=
  handleAudioError
    { p with audioPlayer := { p.audioPlayer with pendingPlays := p.audioPlayer.pendingPlays - 1 } }

/-! ## Track navigation -/

/-- The function `updateTrackInfo`: it reads `track.title` of the current track and throws
when there is none; what it writes is markup only. -/
def updateTrackInfo (tracks : List Track) (p : Player) : Option Player :=
  (trackAt tracks p.playerState.currentTrackIndex).map fun _ => p

/-- The function `loadTrack`. -/
def loadTrack (tracks : List Track) (p : Player) : Option Player :=
  (trackAt tracks p.playerState.currentTrackIndex).map fun track =>
    { p with audioPlayer := { p.audioPlayer with
        src := track.url,
        calls := p.audioPlayer.calls ++ [DeviceCall.load] } }

/-- The function `selectTrack(index)`. -/
def selectTrack (tracks : List Track) (index : ℤ) (p : Player) : Option Player :=
  (updateTrackInfo tracks
      { p with playerState := { p.playerState with currentTrackIndex := index } }).bind fun p1 =>
    (loadTrack tracks p1).map fun p2 =>
      if p2.playerState.autoplay then playAudio p2 else p2

/-- The function `playRandomTrack`; `r` is the value `Math.random()` returns. -/
def playRandomTrack (tracks : List Track) (r : ℚ) (p : Player) : Option Player :=
  selectTrack tracks ⌊r * (tracks.length : ℚ)⌋ p

/-- The function `nextTrack`; `r` is the value `Math.random()` returns if it is called.
With an empty `tracks` the new index is `NaN` and `updateTrackInfo` throws. -/
def nextTrack (tracks : List Track) (r : ℚ) (p : Player) : Option Player :=
  if p.playerState.shuffle then playRandomTrack tracks r p
  else
    match jsRem (p.playerState.currentTrackIndex + 1) (tracks.length : ℤ) with
    | none => none
    | some j =>
      selectTrack tracks j
        { p with playerState := { p.playerState with currentTrackIndex := j } }

/-- The function `prevTrack`. -/
def prevTrack (tracks : List Track) (p : Player) : Option Player :=
  if p.audioPlayer.currentTime > 3 then
    some { p with audioPlayer := { p.audioPlayer with currentTime := 0 } }
  else
    match jsRem (p.playerState.currentTrackIndex - 1 + (tracks.length : ℤ))
        (tracks.length : ℤ) with
    | none => none
    | some j =>
      selectTrack tracks j
        { p with playerState := { p.playerState with currentTrackIndex := j } }

/-- The function `handleTrackEnd`, listener of the element's `ended` event. -/
def handleTrackEnd (tracks : List Track) (r : ℚ) (p : Player) : Option Player :=
  if !p.playerState.autoplay then some (pauseAudio p)
  else if p.playerState.repeatMode = 2 then
    some (playAudio { p with audioPlayer := { p.audioPlayer with currentTime := 0 } })
  else if p.playerState.shuffle then playRandomTrack tracks r p
  else nextTrack tracks r p

/-! ## Special controls, volume and keyboard -/

/-- The function `toggleShuffle`. -/
def toggleShuffle (p : Player) : Player :=
  { p with playerState := { p.playerState with shuffle := !p.playerState.shuffle } }

/-- The function `toggleRepeat`. -/
def toggleRepeat (p : Player) : Player :=
  { p with playerState := { p.playerState with
      repeatMode := (p.playerState.repeatMode + 1) % 3 } }

/-- Modelled from the spec: the markup that declares the slider `volumeRange` is not in
the source; its lower bound is the 0 of the spec's volume range `[0,100]`, which is also the
default of a range input. -/
def volumeRangeMin : ℤ := 0

/-- Modelled from the spec: the markup that declares the slider `volumeRange` is not in
the source; its upper bound is the 100 of the spec's volume range `[0,100]`, which is also the
default of a range input. -/
def volumeRangeMax : ℤ := 100

/-- The value a range input stores when `x` is assigned to `volumeRange.value` or the user
asks for `x`: a value below the range becomes its lower bound, a value above it its upper
bound. -/
def sanitizeRange (x : ℤ) : ℤ :=
  if x < volumeRangeMin then volumeRangeMin
  else if volumeRangeMax < x then volumeRangeMax
  else x

/-- The function `setVolume`: it reads the slider and writes `volumeRange.value / 100` to
the element's volume.  The element throws for a volume outside `[0,1]`. -/
def setVolume (p : Player) : Option Player :=
  if 0 ≤ toDouble ((p.volumeRange : ℚ) / 100) ∧ toDouble ((p.volumeRange : ℚ) / 100) ≤ 1 then
    some { p with audioPlayer := { p.audioPlayer with
      volume := toDouble ((p.volumeRange : ℚ) / 100) } }
  else none

/-- The function `handleKeyPress` on the key code `e.code`; `r` is the value
`Math.random()` returns if it is called. -/
def handleKeyPress (tracks : List Track) (code : String) (r : ℚ) (p : Player) :
    Option Player :=
  if code = "Space" then some (togglePlay p)
  else if code = "ArrowRight" then nextTrack tracks r p
  else if code = "ArrowLeft" then prevTrack tracks p
  else if code = "ArrowUp" then
    setVolume { p with volumeRange := sanitizeRange (min 100 (p.volumeRange + 10)) }
  else if code = "ArrowDown" then
    setVolume { p with volumeRange := sanitizeRange (max 0 (p.volumeRange - 10)) }
  else some p

/-! ## Events -/

/-- The events the listeners of `init` are registered for, and the settling of a play
promise.  In `volumeInput x` the user has asked the slider for the level `x`. -/
inductive Event where
  | playClick
  | prevClick
  | nextClick (r : ℚ)
  | playlistClick (index : ℕ)
  | volumeInput (x : ℤ)
  | shuffleClick
  | repeatClick
  | keydown (code : String) (r : ℚ)
  | audioPlay
  | audioPause
  | audioEnded (r : ℚ)
  | audioError
  | playFulfilled
  | playRejected
  deriving DecidableEq

/-- The listener that `init` registers for each event. -/
def step (tracks : List Track) (e : Event) (p : Player) : Option Player :=
  match e with
  | .playClick => some (togglePlay p)
  | .prevClick => prevTrack tracks p
  | .nextClick r => nextTrack tracks r p
  | .playlistClick index => selectTrack tracks (index : ℤ) p
  | .volumeInput x => setVolume { p with volumeRange := sanitizeRange x }
  | .shuffleClick => some (toggleShuffle p)
  | .repeatClick => some (toggleRepeat p)
  | .keydown code r => handleKeyPress tracks code r p
  | .audioPlay => some (onAudioPlay p)
  | .audioPause => some (onAudioPause p)
  | .audioEnded r => handleTrackEnd tracks r p
  | .audioError => some (handleAudioError p)
  | .playFulfilled => some (onPlayFulfilled p)
  | .playRejected => some (onPlayRejected p)

/-- The listeners run one after the other on a sequence of events. -/
def run (tracks : List Track) : List Event → Player → Option Player
  | [], p => some p
  | e :: es, p => (step tracks e p).bind (run tracks es)

/-- The invariant of the data model: the current index is a position of the playlist. -/
def InRange (tracks : List Track) (p : Player) : Prop :=
  0 ≤ p.playerState.currentTrackIndex ∧
    p.playerState.currentTrackIndex < (tracks.length : ℤ)

/-- A player in the state the script starts from: the initial `playerState`, the first
track loaded, volume `0.7`, no call of `play` or `pause` made; `level` is the value the
markup gives the slider. -/
def startPlayer (level : ℤ) : Player :=
  { playerState :=
      { currentTrackIndex := 0, isPlaying := false, shuffle := false, repeatMode := 0,
        autoplay := true },
    audioPlayer :=
      { src := "https://www.soundhelix.com/examples/mp3/SoundHelix-Song-1.mp3",
        currentTime := 0, volume := toDouble (7 / 10), playReturn := PlayReturn.promise,
        pendingPlays := 0, calls := [DeviceCall.load] },
    volumeRange := sanitizeRange level }

/-- A player that is at position `i` with elapsed time `t`, and otherwise as at the start. -/
def playerAt (i : ℤ) (t : ℚ) : Player :=
  { startPlayer 70 with
    playerState := { (startPlayer 70).playerState with currentTrackIndex := i },
    audioPlayer := { (startPlayer 70).audioPlayer with currentTime := t } }

/-! ## Auxiliary facts -/

theorem playAudio_playerState (p : Player) : (playAudio p).playerState = p.playerState := by
  unfold playAudio
  cases p.audioPlayer.playReturn <;> rfl

theorem playAudio_calls (p : Player) :
    (playAudio p).audioPlayer.calls = p.audioPlayer.calls ++ [DeviceCall.play] := by
  unfold playAudio
  cases p.audioPlayer.playReturn <;> rfl

theorem playAudio_currentTime (p : Player) :
    (playAudio p).audioPlayer.currentTime = p.audioPlayer.currentTime := by
  unfold playAudio
  cases p.audioPlayer.playReturn <;> rfl

theorem playAudio_volumeRange (p : Player) : (playAudio p).volumeRange = p.volumeRange := by
  unfold playAudio
  cases p.audioPlayer.playReturn <;> rfl

theorem trackAt_of_lt (tracks : List Track) (i : ℤ) (h0 : 0 ≤ i)
    (h1 : i < (tracks.length : ℤ)) : ∃ t, trackAt tracks i = some t := by
  have hlt : i.toNat < tracks.length := by omega
  exact ⟨tracks[i.toNat], by simp [trackAt, h0, List.getElem?_eq_getElem hlt]⟩

theorem selectTrack_eq (tracks : List Track) (i : ℤ) (p : Player) (t : Track)
    (ht : trackAt tracks i = some t) :
    selectTrack tracks i p =
      some (if p.playerState.autoplay then
        playAudio
          { playerState := { p.playerState with currentTrackIndex := i },
            audioPlayer := { p.audioPlayer with
              src := t.url, calls := p.audioPlayer.calls ++ [DeviceCall.load] },
            volumeRange := p.volumeRange }
      else
        { playerState := { p.playerState with currentTrackIndex := i },
          audioPlayer := { p.audioPlayer with
            src := t.url, calls := p.audioPlayer.calls ++ [DeviceCall.load] },
          volumeRange := p.volumeRange }) := by
  simp [selectTrack, updateTrackInfo, loadTrack, ht]

/-- What `selectTrack` does at a position of the playlist: it returns, the index is the
requested one, the other fields of `playerState` and the element's position are kept, and the
element receives `load`, followed by `play` exactly when `autoplay` is set. -/
theorem selectTrack_of_lt (tracks : List Track) (i : ℤ) (p : Player) (h0 : 0 ≤ i)
    (h1 : i < (tracks.length : ℤ)) :
    ∃ q, selectTrack tracks i p = some q ∧
      q.playerState = { p.playerState with currentTrackIndex := i } ∧
      q.audioPlayer.currentTime = p.audioPlayer.currentTime ∧
      q.audioPlayer.calls = p.audioPlayer.calls ++
        DeviceCall.load :: (if p.playerState.autoplay then [DeviceCall.play] else []) ∧
      q.volumeRange = p.volumeRange := by
  obtain ⟨t, ht⟩ := trackAt_of_lt tracks i h0 h1
  refine ⟨_, selectTrack_eq tracks i p t ht, ?_⟩
  by_cases ha : p.playerState.autoplay = true
  · simp only [ha, if_true]
    refine ⟨?_, ?_, ?_, ?_⟩
    · rw [playAudio_playerState]
    · rw [playAudio_currentTime]
    · rw [playAudio_calls]; simp
    · rw [playAudio_volumeRange]
  · simp only [ha, if_false]
    exact ⟨rfl, rfl, by simp, rfl⟩

theorem floor_draw_nonneg (n : ℕ) (r : ℚ) (h0 : 0 ≤ r) : 0 ≤ ⌊r * (n : ℚ)⌋ :=
  Int.floor_nonneg.mpr (mul_nonneg h0 (Nat.cast_nonneg n))

theorem floor_draw_lt (n : ℕ) (r : ℚ) (hn : 0 < n) (h1 : r < 1) : ⌊r * (n : ℚ)⌋ < (n : ℤ) := by
  rw [Int.floor_lt]
  have hn' : (0 : ℚ) < (n : ℚ) := by exact_mod_cast hn
  have : r * (n : ℚ) < 1 * (n : ℚ) := mul_lt_mul_of_pos_right h1 hn'
  simpa using this

theorem jsRem_of_nonneg (a b : ℤ) (ha : 0 ≤ a) (hb : 0 < b) : jsRem a b = some (a % b) := by
  have hb' : b ≠ 0 := by omega
  simp [jsRem, hb', Int.tmod_eq_emod ha (le_of_lt hb)]

theorem playRandomTrack_of_draw (tracks : List Track) (r : ℚ) (p : Player)
    (hn : tracks ≠ []) (h0 : 0 ≤ r) (h1 : r < 1) :
    ∃ q, playRandomTrack tracks r p = some q ∧
      q.playerState = { p.playerState with
        currentTrackIndex := ⌊r * (tracks.length : ℚ)⌋ } ∧
      InRange tracks q ∧
      q.audioPlayer.currentTime = p.audioPlayer.currentTime ∧
      q.audioPlayer.calls = p.audioPlayer.calls ++
        DeviceCall.load :: (if p.playerState.autoplay then [DeviceCall.play] else []) := by
  have hpos : 0 < tracks.length := List.length_pos.mpr hn
  have hlo := floor_draw_nonneg tracks.length r h0
  have hhi := floor_draw_lt tracks.length r hpos h1
  obtain ⟨q, hq, hs, ht, hc, _⟩ := selectTrack_of_lt tracks _ p hlo hhi
  exact ⟨q, hq, hs, ⟨by rw [hs]; exact hlo, by rw [hs]; exact hhi⟩, ht, hc⟩

theorem nextTrack_of_sequential (tracks : List Track) (r : ℚ) (p : Player)
    (h : InRange tracks p) (hs : p.playerState.shuffle = false) :
    ∃ q, nextTrack tracks r p = some q ∧
      q.playerState = { p.playerState with
        currentTrackIndex := (p.playerState.currentTrackIndex + 1) % (tracks.length : ℤ) } ∧
      InRange tracks q ∧
      q.audioPlayer.currentTime = p.audioPlayer.currentTime ∧
      q.audioPlayer.calls = p.audioPlayer.calls ++
        DeviceCall.load :: (if p.playerState.autoplay then [DeviceCall.play] else []) := by
  obtain ⟨h0, h1⟩ := h
  have hn : (0 : ℤ) < (tracks.length : ℤ) := by omega
  have hlo : 0 ≤ (p.playerState.currentTrackIndex + 1) % (tracks.length : ℤ) :=
    Int.emod_nonneg _ (by omega)
  have hhi : (p.playerState.currentTrackIndex + 1) % (tracks.length : ℤ) < (tracks.length : ℤ) :=
    Int.emod_lt_of_pos _ hn
  obtain ⟨q, hq, hps, ht, hc, _⟩ := selectTrack_of_lt tracks _ p hlo hhi
  refine ⟨q, ?_, hps, ⟨by rw [hps]; exact hlo, by rw [hps]; exact hhi⟩, ht, hc⟩
  unfold nextTrack
  rw [if_neg (by simp [hs]),
    jsRem_of_nonneg _ _ (by omega : 0 ≤ p.playerState.currentTrackIndex + 1) hn]
  exact hq

theorem prevTrack_of_early (tracks : List Track) (p : Player)
    (h : InRange tracks p) (ht : p.audioPlayer.currentTime ≤ 3) :
    ∃ q, prevTrack tracks p = some q ∧
      q.playerState = { p.playerState with
        currentTrackIndex :=
          (p.playerState.currentTrackIndex - 1 + (tracks.length : ℤ)) % (tracks.length : ℤ) } ∧
      InRange tracks q ∧
      q.audioPlayer.currentTime = p.audioPlayer.currentTime ∧
      q.audioPlayer.calls = p.audioPlayer.calls ++
        DeviceCall.load :: (if p.playerState.autoplay then [DeviceCall.play] else []) := by
  obtain ⟨h0, h1⟩ := h
  have hn : (0 : ℤ) < (tracks.length : ℤ) := by omega
  have hlo : 0 ≤ (p.playerState.currentTrackIndex - 1 + (tracks.length : ℤ))
      % (tracks.length : ℤ) := Int.emod_nonneg _ (by omega)
  have hhi : (p.playerState.currentTrackIndex - 1 + (tracks.length : ℤ))
      % (tracks.length : ℤ) < (tracks.length : ℤ) := Int.emod_lt_of_pos _ hn
  obtain ⟨q, hq, hps, hct, hc, _⟩ := selectTrack_of_lt tracks _ p hlo hhi
  refine ⟨q, ?_, hps, ⟨by rw [hps]; exact hlo, by rw [hps]; exact hhi⟩, hct, hc⟩
  have hnot : ¬ p.audioPlayer.currentTime > 3 := not_lt.mpr ht
  unfold prevTrack
  rw [if_neg hnot,
    jsRem_of_nonneg _ _
      (by omega : 0 ≤ p.playerState.currentTrackIndex - 1 + (tracks.length : ℤ)) hn]
  exact hq

theorem prevTrack_of_late (tracks : List Track) (p : Player)
    (ht : p.audioPlayer.currentTime > 3) :
    prevTrack tracks p = some { p with audioPlayer := { p.audioPlayer with currentTime := 0 } } := by
  simp [prevTrack, ht]

theorem nextTrack_inRange (tracks : List Track) (r : ℚ) (p : Player)
    (h : InRange tracks p) (h0 : 0 ≤ r) (h1 : r < 1) :
    ∃ q, nextTrack tracks r p = some q ∧ InRange tracks q := by
  have hn : tracks ≠ [] := by
    intro he
    obtain ⟨a, b⟩ := h
    simp [he] at b
    omega
  by_cases hs : p.playerState.shuffle = true
  · obtain ⟨q, hq, _, hin, _⟩ := playRandomTrack_of_draw tracks r p hn h0 h1
    exact ⟨q, by unfold nextTrack; rw [if_pos hs]; exact hq, hin⟩
  · obtain ⟨q, hq, _, hin, _⟩ := nextTrack_of_sequential tracks r p h (by simpa using hs)
    exact ⟨q, hq, hin⟩

theorem prevTrack_inRange (tracks : List Track) (p : Player) (h : InRange tracks p) :
    ∃ q, prevTrack tracks p = some q ∧ InRange tracks q := by
  by_cases ht : p.audioPlayer.currentTime > 3
  · exact ⟨_, prevTrack_of_late tracks p ht, h⟩
  · obtain ⟨q, hq, _, hin, _⟩ := prevTrack_of_early tracks p h (not_lt.mp ht)
    exact ⟨q, hq, hin⟩

theorem index_zero_of_single (tracks : List Track) (q : Player) (h : InRange tracks q)
    (h1 : tracks.length = 1) : q.playerState.currentTrackIndex = 0 := by
  obtain ⟨a, b⟩ := h
  rw [h1] at b
  omega

/-- After any number of `nextTrack` calls with shuffle off the index has moved forward by
that number, modulo the playlist length. -/
theorem run_nextClick (tracks : List Track) (rs : List ℚ) :
    ∀ p : Player, InRange tracks p → p.playerState.shuffle = false →
      ∃ q, run tracks (rs.map Event.nextClick) p = some q ∧
        q.playerState.currentTrackIndex =
          (p.playerState.currentTrackIndex + (rs.length : ℤ)) % (tracks.length : ℤ) ∧
        q.playerState.shuffle = false := by
  induction rs with
  | nil =>
    intro p h hs
    obtain ⟨h0, h1⟩ := h
    exact ⟨p, rfl, by simp [Int.emod_eq_of_lt h0 h1], hs⟩
  | cons r rs ih =>
    intro p h hs
    obtain ⟨q, hq, hps, hin, _⟩ := nextTrack_of_sequential tracks r p h hs
    have hsq : q.playerState.shuffle = false := by rw [hps]; exact hs
    obtain ⟨q', hq', hidx, hs'⟩ := ih q hin hsq
    refine ⟨q', ?_, ?_, hs'⟩
    · simp only [List.map_cons, run, step, hq, Option.some_bind]
      exact hq'
    · rw [hidx, hps]
      simp only [List.length_cons, Nat.cast_add, Nat.cast_one]
      rw [Int.emod_add_emod, add_assoc, add_comm (1 : ℤ)]

theorem inRange_startPlayer (level : ℤ) : InRange tracks (startPlayer level) := by
  constructor <;> simp [startPlayer, tracks]

theorem inRange_playerAt_two (t : ℚ) : InRange tracks (playerAt 2 t) := by
  constructor <;> simp [playerAt, tracks]

/-! ## Navigation: claims C1 to C5 -/

/-- C1: from a state whose index is a position of the playlist, each of `nextTrack` (shuffle
off or on, any draw in `[0,1)`), `prevTrack` (any elapsed time), `handleTrackEnd` (any
autoplay, repeat mode and shuffle setting), `playRandomTrack` and `selectTrack(i)` with
`0 ≤ i < length` returns and leaves the index a position of the playlist; on a playlist of one
track `nextTrack` and `prevTrack` yield index 0. -/
theorem index_in_range (tracks : List Track) (p : Player) (h : InRange tracks p) :
    (∀ r : ℚ, 0 ≤ r → r < 1 → ∃ q, nextTrack tracks r p = some q ∧ InRange tracks q) ∧
    (∃ q, prevTrack tracks p = some q ∧ InRange tracks q) ∧
    (∀ r : ℚ, 0 ≤ r → r < 1 → ∃ q, handleTrackEnd tracks r p = some q ∧ InRange tracks q) ∧
    (∀ r : ℚ, 0 ≤ r → r < 1 → ∃ q, playRandomTrack tracks r p = some q ∧ InRange tracks q) ∧
    (∀ i : ℤ, 0 ≤ i → i < (tracks.length : ℤ) →
      ∃ q, selectTrack tracks i p = some q ∧ InRange tracks q) ∧
    (tracks.length = 1 →
      (∀ r : ℚ, 0 ≤ r → r < 1 →
        ∃ q, nextTrack tracks r p = some q ∧ q.playerState.currentTrackIndex = 0) ∧
      (∃ q, prevTrack tracks p = some q ∧ q.playerState.currentTrackIndex = 0)) := by
  have hn : tracks ≠ [] := by
    intro he
    obtain ⟨a, b⟩ := h
    simp [he] at b
    omega
  refine ⟨fun r h0 h1 => nextTrack_inRange tracks r p h h0 h1, prevTrack_inRange tracks p h,
    ?_, ?_, ?_, ?_⟩
  · intro r h0 h1
    unfold handleTrackEnd
    by_cases ha : p.playerState.autoplay = true
    · rw [if_neg (by simp [ha])]
      by_cases hr : p.playerState.repeatMode = 2
      · rw [if_pos hr]
        refine ⟨_, rfl, ?_⟩
        unfold InRange
        rw [playAudio_playerState]
        exact h
      · rw [if_neg hr]
        by_cases hs : p.playerState.shuffle = true
        · rw [if_pos hs]
          obtain ⟨q, hq, _, hin, _⟩ := playRandomTrack_of_draw tracks r p hn h0 h1
          exact ⟨q, hq, hin⟩
        · rw [if_neg hs]
          exact nextTrack_inRange tracks r p h h0 h1
    · rw [if_pos (by simpa using ha)]
      exact ⟨_, rfl, h⟩
  · intro r h0 h1
    obtain ⟨q, hq, _, hin, _⟩ := playRandomTrack_of_draw tracks r p hn h0 h1
    exact ⟨q, hq, hin⟩
  · intro i h0 h1
    obtain ⟨q, hq, hps, _⟩ := selectTrack_of_lt tracks i p h0 h1
    exact ⟨q, hq, ⟨by rw [hps]; exact h0, by rw [hps]; exact h1⟩⟩
  · intro hlen
    constructor
    · intro r h0 h1
      obtain ⟨q, hq, hin⟩ := nextTrack_inRange tracks r p h h0 h1
      exact ⟨q, hq, index_zero_of_single tracks q hin hlen⟩
    · obtain ⟨q, hq, hin⟩ := prevTrack_inRange tracks p h
      exact ⟨q, hq, index_zero_of_single tracks q hin hlen⟩

/-- Witness of C1 on the script's playlist, from the starting state. -/
theorem index_in_range_witness :
    InRange tracks (startPlayer 70) ∧
      ∃ q, prevTrack tracks (startPlayer 70) = some q ∧ InRange tracks q :=
  ⟨inRange_startPlayer 70, (index_in_range tracks (startPlayer 70) (inRange_startPlayer 70)).2.1⟩

/-- C2: with shuffle off and the index a position of the playlist, `nextTrack` applied as
many times as the playlist is long returns to the starting index; and one `nextTrack` at the
last position yields index 0, whatever the repeat mode. -/
theorem nextTrack_wrap_around (tracks : List Track) (p : Player) (h : InRange tracks p)
    (hs : p.playerState.shuffle = false) :
    (∀ rs : List ℚ, rs.length = tracks.length →
      ∃ q, run tracks (rs.map Event.nextClick) p = some q ∧
        q.playerState.currentTrackIndex = p.playerState.currentTrackIndex) ∧
    (∀ r : ℚ, p.playerState.currentTrackIndex = (tracks.length : ℤ) - 1 →
      ∃ q, nextTrack tracks r p = some q ∧ q.playerState.currentTrackIndex = 0) := by
  constructor
  · intro rs hlen
    obtain ⟨q, hq, hidx, _⟩ := run_nextClick tracks rs p h hs
    refine ⟨q, hq, ?_⟩
    rw [hidx, hlen, Int.add_emod_self]
    exact Int.emod_eq_of_lt h.1 h.2
  · intro r hlast
    obtain ⟨q, hq, hps, _⟩ := nextTrack_of_sequential tracks r p h hs
    refine ⟨q, hq, ?_⟩
    rw [hps]
    show (p.playerState.currentTrackIndex + 1) % (tracks.length : ℤ) = 0
    rw [hlast]
    simp

/-- Witness of C2: five `nextTrack` calls on the script's playlist, from the start. -/
theorem nextTrack_wrap_around_witness :
    InRange tracks (startPlayer 70) ∧ (startPlayer 70).playerState.shuffle = false ∧
      ∃ q, run tracks ([0, 0, 0, 0, 0].map Event.nextClick) (startPlayer 70) = some q ∧
        q.playerState.currentTrackIndex = (startPlayer 70).playerState.currentTrackIndex :=
  ⟨inRange_startPlayer 70, rfl,
    (nextTrack_wrap_around tracks (startPlayer 70) (inRange_startPlayer 70) rfl).1
      [0, 0, 0, 0, 0] rfl⟩

/-- C3: the priority order of `handleTrackEnd`.  (1) With autoplay off it returns, the
element receives `pause` and nothing else, `isPlaying` is false and the index is unchanged.
(2) Otherwise with repeat mode 2 the index is unchanged, the element's position is 0 and the
element receives `play` and nothing else, whatever the shuffle flag.  (3) Otherwise with
shuffle on the index becomes `⌊r * length⌋`, a position of the playlist, and `play` is
requested after the load.  (4) Otherwise the index becomes `(index + 1) mod length` and
`play` is requested after the load. -/
theorem handleTrackEnd_policy (tracks : List Track) (r : ℚ) (p : Player) :
    (p.playerState.autoplay = false →
      ∃ q, handleTrackEnd tracks r p = some q ∧
        q.audioPlayer.calls = p.audioPlayer.calls ++ [DeviceCall.pause] ∧
        q.playerState.isPlaying = false ∧
        q.playerState.currentTrackIndex = p.playerState.currentTrackIndex) ∧
    (p.playerState.autoplay = true → p.playerState.repeatMode = 2 →
      ∃ q, handleTrackEnd tracks r p = some q ∧
        q.playerState.currentTrackIndex = p.playerState.currentTrackIndex ∧
        q.audioPlayer.currentTime = 0 ∧
        q.audioPlayer.calls = p.audioPlayer.calls ++ [DeviceCall.play]) ∧
    (p.playerState.autoplay = true → p.playerState.repeatMode ≠ 2 →
      p.playerState.shuffle = true → tracks ≠ [] → 0 ≤ r → r < 1 →
      ∃ q, handleTrackEnd tracks r p = some q ∧
        q.playerState.currentTrackIndex = ⌊r * (tracks.length : ℚ)⌋ ∧
        0 ≤ q.playerState.currentTrackIndex ∧
        q.playerState.currentTrackIndex < (tracks.length : ℤ) ∧
        q.audioPlayer.calls = p.audioPlayer.calls ++ [DeviceCall.load, DeviceCall.play]) ∧
    (p.playerState.autoplay = true → p.playerState.repeatMode ≠ 2 →
      p.playerState.shuffle = false → InRange tracks p →
      ∃ q, handleTrackEnd tracks r p = some q ∧
        q.playerState.currentTrackIndex =
          (p.playerState.currentTrackIndex + 1) % (tracks.length : ℤ) ∧
        q.audioPlayer.calls = p.audioPlayer.calls ++ [DeviceCall.load, DeviceCall.play]) := by
  refine ⟨?_, ?_, ?_, ?_⟩
  · intro ha
    exact ⟨pauseAudio p, by simp [handleTrackEnd, ha], rfl, rfl, rfl⟩
  · intro ha hr
    refine ⟨playAudio { p with audioPlayer := { p.audioPlayer with currentTime := 0 } },
      by simp [handleTrackEnd, ha, hr], ?_, ?_, ?_⟩
    · rw [playAudio_playerState]
    · rw [playAudio_currentTime]
    · rw [playAudio_calls]
  · intro ha hr hs hn h0 h1
    obtain ⟨q, hq, hps, hin, _, hc⟩ := playRandomTrack_of_draw tracks r p hn h0 h1
    refine ⟨q, by simp [handleTrackEnd, ha, hr, hs, hq], by rw [hps], hin.1, hin.2, ?_⟩
    rw [hc]
    simp [ha]
  · intro ha hr hs hin
    obtain ⟨q, hq, hps, _, _, hc⟩ := nextTrack_of_sequential tracks r p hin hs
    refine ⟨q, by simp [handleTrackEnd, ha, hr, hs, hq], by rw [hps], ?_⟩
    rw [hc]
    simp [ha]

/-- Witness of C3: at the start (autoplay on, repeat mode 0, shuffle off) the end of a
track moves to the next index and requests `load` and `play`. -/
theorem handleTrackEnd_policy_witness :
    (startPlayer 70).playerState.autoplay = true ∧ (startPlayer 70).playerState.repeatMode ≠ 2 ∧
      (startPlayer 70).playerState.shuffle = false ∧ InRange tracks (startPlayer 70) ∧
      ∃ q, handleTrackEnd tracks 0 (startPlayer 70) = some q ∧
        q.playerState.currentTrackIndex =
          ((startPlayer 70).playerState.currentTrackIndex + 1) % (tracks.length : ℤ) ∧
        q.audioPlayer.calls =
          (startPlayer 70).audioPlayer.calls ++ [DeviceCall.load, DeviceCall.play] :=
  ⟨rfl, by decide, rfl, inRange_startPlayer 70,
    (handleTrackEnd_policy tracks 0 (startPlayer 70)).2.2.2 rfl (by decide) rfl
      (inRange_startPlayer 70)⟩

/-- C4: from a state whose index is a position of the playlist, `prevTrack` with more than
3 seconds elapsed returns the same state with the element's position set to 0 (same index, no
call made on the element), and with at most 3 seconds elapsed it returns with the index
`(index - 1 + length) mod length`, which is `length - 1` from index 0. -/
theorem prevTrack_threshold (tracks : List Track) (p : Player) (h : InRange tracks p) :
    (p.audioPlayer.currentTime > 3 →
      ∃ q, prevTrack tracks p = some q ∧
        q.audioPlayer.currentTime = 0 ∧
        q.playerState.currentTrackIndex = p.playerState.currentTrackIndex ∧
        q.audioPlayer.calls = p.audioPlayer.calls) ∧
    (p.audioPlayer.currentTime ≤ 3 →
      ∃ q, prevTrack tracks p = some q ∧
        q.playerState.currentTrackIndex =
          (p.playerState.currentTrackIndex - 1 + (tracks.length : ℤ)) % (tracks.length : ℤ) ∧
        (p.playerState.currentTrackIndex = 0 →
          q.playerState.currentTrackIndex = (tracks.length : ℤ) - 1)) := by
  constructor
  · intro ht
    exact ⟨_, prevTrack_of_late tracks p ht, rfl, rfl, rfl⟩
  · intro ht
    obtain ⟨q, hq, hps, _⟩ := prevTrack_of_early tracks p h ht
    have hidx : q.playerState.currentTrackIndex =
        (p.playerState.currentTrackIndex - 1 + (tracks.length : ℤ)) % (tracks.length : ℤ) := by
      rw [hps]
    refine ⟨q, hq, hidx, ?_⟩
    intro hz
    rw [hidx, hz]
    obtain ⟨h0, h1⟩ := h
    exact Int.emod_eq_of_lt (by omega) (by omega)

/-- Witness of C4: at the start, with no time elapsed, `prevTrack` goes to the last track. -/
theorem prevTrack_threshold_witness :
    InRange tracks (startPlayer 70) ∧ (startPlayer 70).audioPlayer.currentTime ≤ 3 ∧
      ∃ q, prevTrack tracks (startPlayer 70) = some q ∧
        q.playerState.currentTrackIndex =
          ((startPlayer 70).playerState.currentTrackIndex - 1 + (tracks.length : ℤ))
            % (tracks.length : ℤ) ∧
        ((startPlayer 70).playerState.currentTrackIndex = 0 →
          q.playerState.currentTrackIndex = (tracks.length : ℤ) - 1) :=
  ⟨inRange_startPlayer 70, by simp [startPlayer],
    (prevTrack_threshold tracks (startPlayer 70) (inRange_startPlayer 70)).2
      (by simp [startPlayer])⟩

/-- C5, as stated, fails on the script's playlist at index 2: with 2.9 seconds elapsed
`prevTrack` does not restart the track but moves to index 1, and with 3.1 seconds elapsed it
does not move to the previous index but stays at index 2 with the position set to 0. -/
theorem prevTrack_seconds_counterexample :
    (∃ q, prevTrack tracks (playerAt 2 (29 / 10)) = some q ∧
      q.playerState.currentTrackIndex = 1 ∧
      q.playerState.currentTrackIndex ≠ (playerAt 2 (29 / 10)).playerState.currentTrackIndex ∧
      q.audioPlayer.currentTime ≠ 0) ∧
    (∃ q, prevTrack tracks (playerAt 2 (31 / 10)) = some q ∧
      q.playerState.currentTrackIndex = 2 ∧
      q.audioPlayer.currentTime = 0 ∧
      q.playerState.currentTrackIndex ≠
        ((playerAt 2 (31 / 10)).playerState.currentTrackIndex - 1 + (tracks.length : ℤ))
          % (tracks.length : ℤ)) := by
  constructor
  · obtain ⟨q, hq, hps, _, hct, _⟩ :=
      prevTrack_of_early tracks (playerAt 2 (29 / 10)) (inRange_playerAt_two _)
        (by norm_num [playerAt])
    refine ⟨q, hq, ?_, ?_, ?_⟩
    · rw [hps]; simp [playerAt, tracks]
    · rw [hps]; simp [playerAt, tracks]
    · rw [hct]; norm_num [playerAt]
  · refine ⟨_, prevTrack_of_late tracks (playerAt 2 (31 / 10)) (by norm_num [playerAt]),
      rfl, rfl, ?_⟩
    simp [playerAt, tracks, startPlayer]

/-- C5 as amended: from a state whose index is a position of the playlist, `prevTrack` with
2.9 seconds elapsed moves to the previous index `(index - 1 + length) mod length`, and with
3.1 seconds elapsed restarts the current track (position 0, same index, no call made on the
element). -/
theorem prevTrack_seconds (tracks : List Track) (p : Player) (h : InRange tracks p) :
    (p.audioPlayer.currentTime = 29 / 10 →
      ∃ q, prevTrack tracks p = some q ∧
        q.playerState.currentTrackIndex =
          (p.playerState.currentTrackIndex - 1 + (tracks.length : ℤ)) % (tracks.length : ℤ)) ∧
    (p.audioPlayer.currentTime = 31 / 10 →
      ∃ q, prevTrack tracks p = some q ∧
        q.audioPlayer.currentTime = 0 ∧
        q.playerState.currentTrackIndex = p.playerState.currentTrackIndex ∧
        q.audioPlayer.calls = p.audioPlayer.calls) := by
  constructor
  · intro ht
    obtain ⟨q, hq, hps, _⟩ := prevTrack_of_early tracks p h (by rw [ht]; norm_num)
    exact ⟨q, hq, by rw [hps]⟩
  · intro ht
    exact ⟨_, prevTrack_of_late tracks p (by rw [ht]; norm_num), rfl, rfl, rfl⟩

/-- Witness of amended C5 on the script's playlist at index 2 with 2.9 seconds elapsed. -/
theorem prevTrack_seconds_witness :
    InRange tracks (playerAt 2 (29 / 10)) ∧
      (playerAt 2 (29 / 10)).audioPlayer.currentTime = 29 / 10 ∧
      ∃ q, prevTrack tracks (playerAt 2 (29 / 10)) = some q ∧
        q.playerState.currentTrackIndex =
          ((playerAt 2 (29 / 10)).playerState.currentTrackIndex - 1 + (tracks.length : ℤ))
            % (tracks.length : ℤ) :=
  ⟨inRange_playerAt_two _, rfl,
    (prevTrack_seconds tracks (playerAt 2 (29 / 10)) (inRange_playerAt_two _)).1 rfl⟩

/-! ## Time labels: claims C6 and C7 -/

theorem roundHalfEven_intCast (z : ℤ) : roundHalfEven (z : ℚ) = z := by
  simp [roundHalfEven]

theorem floor_le_roundHalfEven (x : ℚ) : ⌊x⌋ ≤ roundHalfEven x := by
  unfold roundHalfEven
  split_ifs <;> omega

theorem roundHalfEven_le_of_le (x : ℚ) (m : ℤ) (h : x ≤ (m : ℚ)) : roundHalfEven x ≤ m := by
  rcases h.eq_or_lt with he | hlt
  · rw [he, roundHalfEven_intCast]
  · have hf : ⌊x⌋ < m := Int.floor_lt.mpr hlt
    unfold roundHalfEven
    split_ifs <;> omega

theorem roundHalfEven_sub_le (x : ℚ) :
    (roundHalfEven x : ℚ) - x ≤ 1 / 2 ∧ x - (roundHalfEven x : ℚ) ≤ 1 / 2 := by
  have h0 := Int.floor_le x
  have h1 := Int.lt_floor_add_one x
  unfold roundHalfEven
  split_ifs with ha hb hc
  · constructor <;> linarith
  · push_cast; constructor <;> linarith
  · constructor <;> linarith
  · push_cast; constructor <;> linarith

theorem roundHalfEven_up (x : ℚ) (f : ℤ) (h1 : (f : ℚ) + 1 / 2 < x) (h2 : x < (f : ℚ) + 1) :
    roundHalfEven x = f + 1 := by
  have hf : ⌊x⌋ = f := by
    rw [Int.floor_eq_iff]
    constructor <;> linarith
  unfold roundHalfEven
  rw [hf, if_neg (by linarith), if_pos (by linarith)]

theorem log_two_eq (x : ℚ) (e : ℤ) (h1 : (2 : ℚ) ^ e ≤ x) (h2 : x < (2 : ℚ) ^ (e + 1)) :
    Int.log 2 x = e := by
  have hx : 0 < x := lt_of_lt_of_le (by positivity) h1
  apply le_antisymm
  · have h := (Int.lt_zpow_iff_log_lt (b := 2) (by norm_num) hx).mp (by exact_mod_cast h2)
    omega
  · exact (Int.zpow_le_iff_le_log (b := 2) (by norm_num) hx).mp (by exact_mod_cast h1)

theorem ulpExp_eq (x : ℚ) (e : ℤ) (h1 : (2 : ℚ) ^ e ≤ |x|) (h2 : |x| < (2 : ℚ) ^ (e + 1))
    (he : -1022 ≤ e) : ulpExp x = e - 52 := by
  unfold ulpExp
  rw [log_two_eq |x| e h1 h2]
  omega

theorem ulpExp_le (x : ℚ) (e : ℕ) (he : 0 < e) (h0 : 0 ≤ x) (h1 : x < 2 ^ e) :
    ulpExp x ≤ (e : ℤ) - 53 := by
  have hlog : Int.log 2 |x| < (e : ℤ) := by
    rcases h0.eq_or_lt with h | h
    · rw [← h]
      simp only [abs_zero, Int.log_of_right_le_zero 2 (le_refl (0 : ℚ))]
      exact_mod_cast he
    · rw [abs_of_pos h, ← Int.lt_zpow_iff_log_lt (by norm_num) h]
      exact_mod_cast h1
  unfold ulpExp
  omega

/-- For `0 ≤ x < 2 ^ e` with `e ≤ 53` the double nearest to `x` is the nearest integer
multiple of `2 ^ (-j)`, for some `j` with `53 ≤ e + j`. -/
theorem toDouble_eq_of_lt (x : ℚ) (e : ℕ) (he : 0 < e) (he53 : e ≤ 53) (h0 : 0 ≤ x)
    (h1 : x < 2 ^ e) :
    ∃ j : ℕ, 53 ≤ e + j ∧
      toDouble x = (roundHalfEven (x * ((2 ^ j : ℕ) : ℚ)) : ℚ) * (((2 ^ j : ℕ) : ℚ))⁻¹ := by
  have hu := ulpExp_le x e he h0 h1
  refine ⟨(-ulpExp x).toNat, by omega, ?_⟩
  have hj : ulpExp x = -(((-ulpExp x).toNat : ℕ) : ℤ) := by omega
  unfold toDouble
  rw [hj, zpow_neg, zpow_natCast, div_inv_eq_mul]
  simp only [Int.toNat_neg_nat, Nat.cast_pow, Nat.cast_ofNat, neg_neg, Int.toNat_ofNat]

theorem toDouble_nonneg (x : ℚ) (h0 : 0 ≤ x) : 0 ≤ toDouble x := by
  unfold toDouble
  have hp : (0 : ℚ) < 2 ^ ulpExp x := by positivity
  have hf : (0 : ℤ) ≤ ⌊x / 2 ^ ulpExp x⌋ := Int.floor_nonneg.mpr (div_nonneg h0 (le_of_lt hp))
  have hr : (0 : ℤ) ≤ roundHalfEven (x / 2 ^ ulpExp x) :=
    le_trans hf (floor_le_roundHalfEven _)
  exact mul_nonneg (by exact_mod_cast hr) (le_of_lt hp)

theorem toDouble_le_one (x : ℚ) (h0 : 0 ≤ x) (h1 : x ≤ 1) : toDouble x ≤ 1 := by
  obtain ⟨j, _, hj⟩ := toDouble_eq_of_lt x 1 (by norm_num) (by norm_num) h0
    (lt_of_le_of_lt h1 (by norm_num))
  have hpos : (0 : ℚ) < ((2 ^ j : ℕ) : ℚ) := by positivity
  have hle : x * ((2 ^ j : ℕ) : ℚ) ≤ (((2 ^ j : ℕ) : ℤ) : ℚ) := by
    rw [Int.cast_natCast]
    exact mul_le_of_le_one_left (le_of_lt hpos) h1
  have hr := roundHalfEven_le_of_le _ _ hle
  have hrq : (roundHalfEven (x * ((2 ^ j : ℕ) : ℚ)) : ℚ) ≤ ((2 ^ j : ℕ) : ℚ) := by
    exact_mod_cast hr
  rw [hj, mul_inv_le_iff₀ hpos, one_mul]
  exact hrq

/-- The quotient of a whole number below `2 ^ 53` by 60, rounded to a double, has the
integer quotient as its floor. -/
theorem floor_toDouble_div_sixty (n : ℕ) (hn : n < 2 ^ 53) :
    ⌊toDouble ((n : ℚ) / 60)⌋ = ((n / 60 : ℕ) : ℤ) := by
  have hx0 : (0 : ℚ) ≤ (n : ℚ) / 60 := by positivity
  have hx1 : (n : ℚ) / 60 < 2 ^ 48 := by
    have h : (n : ℚ) < 2 ^ 53 := by exact_mod_cast hn
    rw [div_lt_iff₀ (by norm_num)]
    linarith
  obtain ⟨j, hj5, hj⟩ := toDouble_eq_of_lt _ 48 (by norm_num) (by norm_num) hx0 hx1
  have hjpos : (0 : ℚ) < ((2 ^ j : ℕ) : ℚ) := by positivity
  have hj32 : (32 : ℚ) ≤ ((2 ^ j : ℕ) : ℚ) := by
    have h : 2 ^ 5 ≤ 2 ^ j := Nat.pow_le_pow_right (by norm_num) (by omega)
    exact_mod_cast h
  have hmod : (n : ℚ) = ((n % 60 : ℕ) : ℚ) + 60 * ((n / 60 : ℕ) : ℚ) := by
    exact_mod_cast (Nat.mod_add_div n 60).symm
  rw [hj]
  by_cases hr : n % 60 = 0
  · have hxeq : (n : ℚ) / 60 = ((n / 60 : ℕ) : ℚ) := by
      rw [hmod, hr]; simp
    have hx : (n : ℚ) / 60 * ((2 ^ j : ℕ) : ℚ) = (((n / 60 * 2 ^ j : ℕ) : ℤ) : ℚ) := by
      rw [Int.cast_natCast, Nat.cast_mul, hxeq]
    rw [hx, roundHalfEven_intCast, Int.cast_natCast, Nat.cast_mul,
      mul_inv_cancel_right₀ (ne_of_gt hjpos), ← Int.cast_natCast, Int.floor_intCast]
  · obtain ⟨e1, e2⟩ := roundHalfEven_sub_le ((n : ℚ) / 60 * ((2 ^ j : ℕ) : ℚ))
    have hr1 : (1 : ℚ) ≤ ((n % 60 : ℕ) : ℚ) := by
      have h : 1 ≤ n % 60 := by omega
      exact_mod_cast h
    have hr2 : ((n % 60 : ℕ) : ℚ) ≤ 59 := by
      have h : n % 60 ≤ 59 := by omega
      exact_mod_cast h
    have hxv : (n : ℚ) / 60 * ((2 ^ j : ℕ) : ℚ) =
        ((n % 60 : ℕ) : ℚ) * ((2 ^ j : ℕ) : ℚ) / 60
          + ((n / 60 : ℕ) : ℚ) * ((2 ^ j : ℕ) : ℚ) := by
      rw [hmod]; ring
    generalize (roundHalfEven ((n : ℚ) / 60 * ((2 ^ j : ℕ) : ℚ)) : ℚ) = R at e1 e2 ⊢
    rw [hxv] at e1 e2
    have hp1 : ((2 ^ j : ℕ) : ℚ) ≤ ((n % 60 : ℕ) : ℚ) * ((2 ^ j : ℕ) : ℚ) :=
      le_mul_of_one_le_left (le_of_lt hjpos) hr1
    have hp2 : ((n % 60 : ℕ) : ℚ) * ((2 ^ j : ℕ) : ℚ) ≤ 59 * ((2 ^ j : ℕ) : ℚ) :=
      mul_le_mul_of_nonneg_right hr2 (le_of_lt hjpos)
    rw [Int.floor_eq_iff, Int.cast_natCast]
    constructor
    · rw [le_mul_inv_iff₀ hjpos]
      linarith
    · rw [mul_inv_lt_iff₀ hjpos]
      linarith

theorem toDouble_natCast_of_lt (v : ℕ) (hv : v < 2 ^ 53) : toDouble (v : ℚ) = (v : ℚ) := by
  obtain ⟨j, _, hj⟩ := toDouble_eq_of_lt (v : ℚ) 53 (by norm_num) (by norm_num)
    (Nat.cast_nonneg v) (by exact_mod_cast hv)
  have hjpos : (0 : ℚ) < ((2 ^ j : ℕ) : ℚ) := by positivity
  have hx : (v : ℚ) * ((2 ^ j : ℕ) : ℚ) = (((v * 2 ^ j : ℕ) : ℤ) : ℚ) := by
    rw [Int.cast_natCast, Nat.cast_mul]
  rw [hj, hx, roundHalfEven_intCast, Int.cast_natCast, Nat.cast_mul,
    mul_inv_cancel_right₀ (ne_of_gt hjpos)]

theorem le_toDouble_natCast (v : ℕ) (hv : 2 ^ 53 ≤ v) : (2 : ℚ) ^ 53 ≤ toDouble (v : ℚ) := by
  have hpos : 0 < v := lt_of_lt_of_le (by norm_num) hv
  have hlog : Int.log 2 |(v : ℚ)| = (Nat.log 2 v : ℤ) := by
    rw [abs_of_nonneg (Nat.cast_nonneg v), Int.log_natCast]
  have hge : 53 ≤ Nat.log 2 v := by
    have h := Nat.log_mono_right (b := 2) hv
    rwa [Nat.log_pow (by norm_num)] at h
  obtain ⟨j, hj⟩ : ∃ j : ℕ, Nat.log 2 v = 52 + j := ⟨Nat.log 2 v - 52, by omega⟩
  have hu : ulpExp (v : ℚ) = (j : ℤ) := by
    unfold ulpExp; rw [hlog, hj]; push_cast; omega
  have hpw : 2 ^ (52 + j) ≤ v := by
    rw [← hj]; exact Nat.pow_log_le_self 2 (by omega)
  have hpwq : (2 : ℚ) ^ 52 * 2 ^ j ≤ (v : ℚ) := by
    rw [← pow_add]; exact_mod_cast hpw
  have hjpos : (0 : ℚ) < 2 ^ j := by positivity
  unfold toDouble
  rw [hu, zpow_natCast]
  have hfl : ((2 ^ 52 : ℕ) : ℤ) ≤ ⌊(v : ℚ) / 2 ^ j⌋ := by
    rw [Int.le_floor, le_div_iff₀ hjpos]
    push_cast
    exact hpwq
  have hr := floor_le_roundHalfEven ((v : ℚ) / 2 ^ j)
  have hrq : ((2 : ℚ) ^ 52) ≤ (roundHalfEven ((v : ℚ) / 2 ^ j) : ℚ) := by
    have h : ((2 ^ 52 : ℕ) : ℤ) ≤ roundHalfEven ((v : ℚ) / 2 ^ j) := le_trans hfl hr
    exact_mod_cast h
  have hj1 : 1 ≤ j := by omega
  have h2 : (2 : ℚ) ≤ 2 ^ j := by
    have h : 2 ^ 1 ≤ 2 ^ j := Nat.pow_le_pow_right (by norm_num) hj1
    exact_mod_cast h
  calc (2 : ℚ) ^ 53 = 2 ^ 52 * 2 := by norm_num
    _ ≤ 2 ^ 52 * 2 ^ j := mul_le_mul_of_nonneg_left h2 (by positivity)
    _ ≤ (roundHalfEven ((v : ℚ) / 2 ^ j) : ℚ) * 2 ^ j :=
      mul_le_mul_of_nonneg_right hrq (le_of_lt hjpos)

theorem eq_of_toDouble_eq (v z : ℕ) (hz : z < 2 ^ 53) (h : toDouble (v : ℚ) = (z : ℚ)) :
    v = z := by
  by_cases hv : v < 2 ^ 53
  · rw [toDouble_natCast_of_lt v hv] at h
    exact_mod_cast h
  · have h1 := le_toDouble_natCast v (not_lt.mp hv)
    rw [h] at h1
    have h2 : (z : ℚ) < 2 ^ 53 := by exact_mod_cast hz
    linarith

theorem shortestAt_eq (z k v : ℕ) (hz : z < 2 ^ 53) (h : shortestAt z k = some v) : v = z := by
  unfold shortestAt at h
  simp only at h
  split_ifs at h with h1 h2 h3 h4 h5 h6 <;> injection h with h <;> subst h
  · exact eq_of_toDouble_eq _ z hz h1.1
  · exact eq_of_toDouble_eq _ z hz h1.2
  · exact eq_of_toDouble_eq _ z hz h1.1
  · exact eq_of_toDouble_eq _ z hz h1.2
  · exact eq_of_toDouble_eq _ z hz h5
  · exact eq_of_toDouble_eq _ z hz h6

theorem shortestFrom_fst (z : ℕ) (hz : z < 2 ^ 53) (fuel : ℕ) :
    ∀ k, (shortestFrom z fuel k).1 = z := by
  induction fuel with
  | zero => intro k; rfl
  | succ fuel ih =>
    intro k
    unfold shortestFrom
    cases h : shortestAt z k with
    | none => exact ih (k + 1)
    | some v => exact shortestAt_eq z k v hz h

/-- A whole number below `2 ^ 53` is printed with all its decimal digits. -/
theorem natToString_of_lt (z : ℕ) (hz : z < 2 ^ 53) : natToString z = Nat.repr z := by
  unfold natToString
  rw [shortestFrom_fst z hz, if_pos (lt_trans hz (by norm_num))]

theorem intToString_natCast (m : ℕ) : intToString (m : ℤ) = natToString m := rfl

theorem floor_natCast_div_sixty (n : ℕ) : ⌊(n : ℚ) / 60⌋ = ((n / 60 : ℕ) : ℤ) := by
  have h := Rat.floor_intCast_div_natCast (n : ℤ) 60
  simpa using h

theorem remSixty_natCast (n : ℕ) : remSixty (.fin (n : ℚ)) = .fin ((n % 60 : ℕ) : ℚ) := by
  have hnn : (0 : ℚ) ≤ (n : ℚ) / 60 := div_nonneg (Nat.cast_nonneg n) (by norm_num)
  have hmod : (n : ℚ) = ((n % 60 : ℕ) : ℚ) + 60 * ((n / 60 : ℕ) : ℚ) := by
    exact_mod_cast (Nat.mod_add_div n 60).symm
  simp only [remSixty, truncQ, hnn, if_true, floor_natCast_div_sixty, Int.cast_natCast]
  congr 1
  linarith

theorem two_digits_of_lt_sixty (s : ℕ) (h : s < 60) :
    (if decide ((s : ℤ) < 10) then "0" else "") ++ Nat.repr s =
      String.mk [Nat.digitChar (s / 10), Nat.digitChar (s % 10)] := by
  interval_cases s <;> decide

/-- On a whole number of seconds below `2 ^ 53`, `formatTime` is the format of the
specification. -/
theorem formatTime_natCast (n : ℕ) (hn : n < 2 ^ 53) :
    formatTime (.fin (n : ℚ)) = specMSS n := by
  have hlt : n % 60 < 60 := Nat.mod_lt n (by norm_num)
  have h2 := two_digits_of_lt_sixty (n % 60) hlt
  have hfl : ⌊((n % 60 : ℕ) : ℚ)⌋ = ((n % 60 : ℕ) : ℤ) := Int.floor_natCast _
  have hm : n / 60 < 2 ^ 53 := lt_of_le_of_lt (Nat.div_le_self n 60) hn
  have hs : n % 60 < 2 ^ 53 := lt_trans hlt (by norm_num)
  rw [formatTime, if_neg (by simp [jsIsNaN, isPosInfinity]), remSixty_natCast]
  simp only [divSixty, mathFloor, floor_toDouble_div_sixty n hn, hfl, ltTen, floorToString,
    intToString_natCast, natToString_of_lt _ hm, natToString_of_lt _ hs]
  rw [String.append_assoc]
  exact congrArg _ h2

/-- C6, as stated, fails on large whole numbers.  The number 67553994410557496
(`60 * 2 ^ 50 + 56`) is a double; its quotient by 60 rounds up to the double `2 ^ 50 + 1`, so
`formatTime` prints 1125899906842625 minutes, while the floor of the quotient is
1125899906842624. -/
theorem formatTime_large_counterexample :
    toDouble 67553994410557496 = 67553994410557496 ∧
    formatTime (.fin 67553994410557496) = "1125899906842625:56" ∧
    specMSS 67553994410557496 = "1125899906842624:56" ∧
    formatTime (.fin 67553994410557496) ≠ specMSS 67553994410557496 := by
  have hin : toDouble (67553994410557496 : ℚ) = 67553994410557496 := by
    have hu : ulpExp (67553994410557496 : ℚ) = 3 := by
      rw [ulpExp_eq _ 55 (by norm_num [abs_of_pos]) (by norm_num [abs_of_pos]) (by norm_num)]
      norm_num
    have hx : (67553994410557496 : ℚ) / 2 ^ (3 : ℤ) = ((8444249301319687 : ℤ) : ℚ) := by
      norm_num
    unfold toDouble
    rw [hu, hx, roundHalfEven_intCast]
    norm_num
  have hq : toDouble ((67553994410557496 : ℚ) / 60) = ((1125899906842625 : ℕ) : ℚ) := by
    have hu : ulpExp ((67553994410557496 : ℚ) / 60) = -2 := by
      rw [ulpExp_eq _ 50 (by norm_num [abs_of_pos]) (by norm_num [abs_of_pos]) (by norm_num)]
      norm_num
    unfold toDouble
    rw [hu, roundHalfEven_up _ 4503599627370499 (by norm_num) (by norm_num)]
    norm_num
  have hrem := remSixty_natCast 67553994410557496
  have hcast : ((67553994410557496 : ℕ) : ℚ) = 67553994410557496 := by norm_num
  rw [hcast] at hrem
  have hfmt : formatTime (.fin 67553994410557496) = "1125899906842625:56" := by
    rw [formatTime, if_neg (by simp [jsIsNaN, isPosInfinity]), hrem]
    simp only [divSixty, mathFloor, hq, Int.floor_natCast, ltTen, floorToString,
      intToString_natCast]
    rw [natToString_of_lt _ (by norm_num), natToString_of_lt _ (by norm_num)]
    decide
  have hspec : specMSS 67553994410557496 = "1125899906842624:56" := by decide
  refine ⟨hin, hfmt, hspec, ?_⟩
  rw [hfmt, hspec]
  decide

/-- C6 as amended: on a whole number `n` of seconds below `2 ^ 53` `formatTime` gives the
numeral of `n / 60` without padding, a colon, and `n mod 60` in exactly two digits; so 0 gives
"0:00", 65 gives "1:05" and 600 gives "10:00". -/
theorem formatTime_safe_seconds :
    (∀ n : ℕ, n < 2 ^ 53 → formatTime (.fin (n : ℚ)) = specMSS n) ∧
    (∀ n : ℕ, n < 2 ^ 53 → ∃ d₁ d₂ : ℕ, d₁ < 10 ∧ d₂ < 10 ∧ 10 * d₁ + d₂ = n % 60 ∧
      formatTime (.fin (n : ℚ)) =
        Nat.repr (n / 60) ++ ":" ++ String.mk [Nat.digitChar d₁, Nat.digitChar d₂]) ∧
    formatTime (.fin 0) = "0:00" ∧
    formatTime (.fin 65) = "1:05" ∧
    formatTime (.fin 600) = "10:00" := by
  refine ⟨formatTime_natCast, ?_, ?_, ?_, ?_⟩
  · intro n hn
    refine ⟨n % 60 / 10, n % 60 % 10, ?_, ?_, ?_, formatTime_natCast n hn⟩ <;> omega
  · have h := formatTime_natCast 0 (by norm_num)
    simp only [Nat.cast_zero] at h
    rw [h]; decide
  · have h := formatTime_natCast 65 (by norm_num)
    simp only [Nat.cast_ofNat] at h
    rw [h]; decide
  · have h := formatTime_natCast 600 (by norm_num)
    simp only [Nat.cast_ofNat] at h
    rw [h]; decide

/-- Witness of amended C6 at 65 seconds. -/
theorem formatTime_safe_seconds_witness :
    65 < 2 ^ 53 ∧ formatTime (.fin ((65 : ℕ) : ℚ)) = specMSS 65 :=
  ⟨by norm_num, formatTime_safe_seconds.1 65 (by norm_num)⟩

/-- C7, as stated, fails at negative infinity: `formatTime(-Infinity)` is
"-Infinity:NaN", not "0:00". -/
theorem formatTime_negInf_counterexample :
    formatTime .negInf = "-Infinity:NaN" ∧ formatTime .negInf ≠ "0:00" := by
  constructor <;> decide

/-- C7 as amended: on `NaN` and on positive infinity `formatTime` returns "0:00". -/
theorem formatTime_nan_posInf :
    formatTime .nan = "0:00" ∧ formatTime .posInf = "0:00" := by
  constructor <;> rfl

/-! ## Failures, volume and the play/pause race: claims C8 to C10 -/

/-- C8: when a play promise is rejected (the `.catch` callback of `playAudio`) and when the
element reports an error (`handleAudioError`), the listener returns without throwing, the
element receives `pause` and nothing else, `isPlaying` is false and the index is unchanged. -/
theorem failure_leaves_paused (tracks : List Track) (p : Player) :
    (step tracks Event.playRejected p = some (onPlayRejected p) ∧
      (onPlayRejected p).audioPlayer.calls = p.audioPlayer.calls ++ [DeviceCall.pause] ∧
      (onPlayRejected p).playerState.isPlaying = false ∧
      (onPlayRejected p).playerState.currentTrackIndex = p.playerState.currentTrackIndex) ∧
    (step tracks Event.audioError p = some (handleAudioError p) ∧
      (handleAudioError p).audioPlayer.calls = p.audioPlayer.calls ++ [DeviceCall.pause] ∧
      (handleAudioError p).playerState.isPlaying = false ∧
      (handleAudioError p).playerState.currentTrackIndex = p.playerState.currentTrackIndex) :=
  ⟨⟨rfl, rfl, rfl, rfl⟩, ⟨rfl, rfl, rfl, rfl⟩⟩

theorem sanitizeRange_eq (x : ℤ) : sanitizeRange x = max 0 (min 100 x) := by
  unfold sanitizeRange volumeRangeMin volumeRangeMax
  split_ifs <;> omega

theorem sanitizeRange_of_mem (x : ℤ) (h0 : 0 ≤ x) (h1 : x ≤ 100) : sanitizeRange x = x := by
  rw [sanitizeRange_eq]
  omega

/-- With the slider's level in `[0,100]`, `setVolume` returns: it keeps the level and
writes the double `level / 100`, which lies in `[0,1]`. -/
theorem setVolume_of_mem (p : Player) (h0 : 0 ≤ p.volumeRange) (h1 : p.volumeRange ≤ 100) :
    ∃ q, setVolume p = some q ∧ q.volumeRange = p.volumeRange ∧
      q.playerState = p.playerState ∧
      q.audioPlayer.volume = toDouble ((p.volumeRange : ℚ) / 100) ∧
      0 ≤ q.audioPlayer.volume ∧ q.audioPlayer.volume ≤ 1 := by
  have hq0 : (0 : ℚ) ≤ (p.volumeRange : ℚ) / 100 :=
    div_nonneg (by exact_mod_cast h0) (by norm_num)
  have hq1 : (p.volumeRange : ℚ) / 100 ≤ 1 := by
    rw [div_le_one (by norm_num)]
    exact_mod_cast h1
  have hd0 := toDouble_nonneg _ hq0
  have hd1 := toDouble_le_one _ hq0 hq1
  exact ⟨{ p with audioPlayer := { p.audioPlayer with
      volume := toDouble ((p.volumeRange : ℚ) / 100) } },
    by rw [setVolume, if_pos ⟨hd0, hd1⟩], rfl, rfl, rfl, hd0, hd1⟩

theorem setVolume_playerState (p q : Player) (h : setVolume p = some q) :
    q.playerState = p.playerState := by
  unfold setVolume at h
  split_ifs at h
  injection h with h
  subst h
  rfl

/-- C9: whatever level `x` is requested on the slider, the level stored after `setVolume`
is `x` clamped to `[0,100]` (120 stores 100, -5 stores 0), `setVolume` returns, and the
element's volume is the stored level over 100, in `[0,1]`.  From a stored level `v` in
`[0,100]` the ArrowUp key stores `min(100, v + 10)` and the ArrowDown key stores
`max(0, v - 10)`, again with the element's volume the stored level over 100, in `[0,1]`. -/
theorem volume_clamps (tracks : List Track) (r : ℚ) (p : Player) :
    (∀ x : ℤ, ∃ q, step tracks (Event.volumeInput x) p = some q ∧
      q.volumeRange = max 0 (min 100 x) ∧
      q.audioPlayer.volume = toDouble ((q.volumeRange : ℚ) / 100) ∧
      0 ≤ q.audioPlayer.volume ∧ q.audioPlayer.volume ≤ 1) ∧
    (∃ q, step tracks (Event.volumeInput 120) p = some q ∧ q.volumeRange = 100) ∧
    (∃ q, step tracks (Event.volumeInput (-5)) p = some q ∧ q.volumeRange = 0) ∧
    (0 ≤ p.volumeRange → p.volumeRange ≤ 100 →
      (∃ q, handleKeyPress tracks "ArrowUp" r p = some q ∧
        q.volumeRange = min 100 (p.volumeRange + 10) ∧
        0 ≤ q.volumeRange ∧ q.volumeRange ≤ 100 ∧
        q.audioPlayer.volume = toDouble ((q.volumeRange : ℚ) / 100) ∧
        0 ≤ q.audioPlayer.volume ∧ q.audioPlayer.volume ≤ 1) ∧
      (∃ q, handleKeyPress tracks "ArrowDown" r p = some q ∧
        q.volumeRange = max 0 (p.volumeRange - 10) ∧
        0 ≤ q.volumeRange ∧ q.volumeRange ≤ 100 ∧
        q.audioPlayer.volume = toDouble ((q.volumeRange : ℚ) / 100) ∧
        0 ≤ q.audioPlayer.volume ∧ q.audioPlayer.volume ≤ 1)) := by
  have input : ∀ x : ℤ, ∃ q, step tracks (Event.volumeInput x) p = some q ∧
      q.volumeRange = max 0 (min 100 x) ∧
      q.audioPlayer.volume = toDouble ((q.volumeRange : ℚ) / 100) ∧
      0 ≤ q.audioPlayer.volume ∧ q.audioPlayer.volume ≤ 1 := by
    intro x
    have hs := sanitizeRange_eq x
    obtain ⟨q, hq, hv, _, hvol, hb0, hb1⟩ :=
      setVolume_of_mem { p with volumeRange := sanitizeRange x }
        (by show 0 ≤ sanitizeRange x; omega) (by show sanitizeRange x ≤ 100; omega)
    exact ⟨q, hq, by rw [hv]; exact hs, by rw [hvol, hv], hb0, hb1⟩
  refine ⟨input, ?_, ?_, ?_⟩
  · obtain ⟨q, hq, hv, _⟩ := input 120
    exact ⟨q, hq, by rw [hv]; decide⟩
  · obtain ⟨q, hq, hv, _⟩ := input (-5)
    exact ⟨q, hq, by rw [hv]; decide⟩
  · intro h0 h1
    constructor
    · have hs : sanitizeRange (min 100 (p.volumeRange + 10)) = min 100 (p.volumeRange + 10) :=
        sanitizeRange_of_mem _ (by omega) (by omega)
      obtain ⟨q, hq, hv, _, hvol, hb0, hb1⟩ :=
        setVolume_of_mem
          { p with volumeRange := sanitizeRange (min 100 (p.volumeRange + 10)) }
          (by show 0 ≤ sanitizeRange _; omega) (by show sanitizeRange _ ≤ 100; omega)
      have hv' : q.volumeRange = min 100 (p.volumeRange + 10) := by rw [hv]; exact hs
      exact ⟨q, by simp [handleKeyPress, hq], hv', by omega, by omega,
        by rw [hvol, hv], hb0, hb1⟩
    · have hs : sanitizeRange (max 0 (p.volumeRange - 10)) = max 0 (p.volumeRange - 10) :=
        sanitizeRange_of_mem _ (by omega) (by omega)
      obtain ⟨q, hq, hv, _, hvol, hb0, hb1⟩ :=
        setVolume_of_mem
          { p with volumeRange := sanitizeRange (max 0 (p.volumeRange - 10)) }
          (by show 0 ≤ sanitizeRange _; omega) (by show sanitizeRange _ ≤ 100; omega)
      have hv' : q.volumeRange = max 0 (p.volumeRange - 10) := by rw [hv]; exact hs
      exact ⟨q, by simp [handleKeyPress, hq], hv', by omega, by omega,
        by rw [hvol, hv], hb0, hb1⟩

/-- Witness of C9: from level 95 ArrowUp stores `min(100, 105)`. -/
theorem volume_clamps_witness :
    0 ≤ (startPlayer 95).volumeRange ∧ (startPlayer 95).volumeRange ≤ 100 ∧
      ∃ q, handleKeyPress tracks "ArrowUp" 0 (startPlayer 95) = some q ∧
        q.volumeRange = min 100 ((startPlayer 95).volumeRange + 10) ∧
        0 ≤ q.volumeRange ∧ q.volumeRange ≤ 100 ∧
        q.audioPlayer.volume = toDouble ((q.volumeRange : ℚ) / 100) ∧
        0 ≤ q.audioPlayer.volume ∧ q.audioPlayer.volume ≤ 1 :=
  ⟨by decide, by decide,
    ((volume_clamps tracks 0 (startPlayer 95)).2.2.2 (by decide) (by decide)).1⟩

theorem selectTrack_isPlaying (tracks : List Track) (i : ℤ) (p q : Player)
    (h : selectTrack tracks i p = some q) :
    q.playerState.isPlaying = p.playerState.isPlaying := by
  cases ht : trackAt tracks i with
  | none => simp [selectTrack, updateTrackInfo, ht] at h
  | some t =>
    rw [selectTrack_eq tracks i p t ht] at h
    by_cases ha : p.playerState.autoplay = true
    · rw [if_pos ha] at h
      injection h with h
      subst h
      rw [playAudio_playerState]
    · rw [if_neg ha] at h
      injection h with h
      subst h
      rfl

theorem nextTrack_isPlaying (tracks : List Track) (r : ℚ) (p q : Player)
    (h : nextTrack tracks r p = some q) :
    q.playerState.isPlaying = p.playerState.isPlaying := by
  unfold nextTrack at h
  split at h
  · exact selectTrack_isPlaying tracks _ p q h
  · split at h
    · cases h
    · exact selectTrack_isPlaying tracks _ _ q h

theorem prevTrack_isPlaying (tracks : List Track) (p q : Player)
    (h : prevTrack tracks p = some q) :
    q.playerState.isPlaying = p.playerState.isPlaying := by
  unfold prevTrack at h
  split at h
  · injection h with h
    subst h
    rfl
  · split at h
    · cases h
    · exact selectTrack_isPlaying tracks _ _ q h

theorem togglePlay_isPlaying (p : Player) (h : (togglePlay p).playerState.isPlaying = true) :
    p.playerState.isPlaying = true := by
  unfold togglePlay at h
  split at h
  · assumption
  · rw [playAudio_playerState] at h
    exact h

theorem handleTrackEnd_isPlaying (tracks : List Track) (r : ℚ) (p q : Player)
    (h : handleTrackEnd tracks r p = some q) (hq : q.playerState.isPlaying = true) :
    p.playerState.isPlaying = true := by
  unfold handleTrackEnd at h
  split at h
  · injection h with h
    subst h
    simp [pauseAudio] at hq
  · split at h
    · injection h with h
      subst h
      rw [playAudio_playerState] at hq
      exact hq
    · split at h
      · rw [← selectTrack_isPlaying tracks _ p q h]
        exact hq
      · rw [← nextTrack_isPlaying tracks r p q h]
        exact hq

theorem handleKeyPress_isPlaying (tracks : List Track) (code : String) (r : ℚ) (p q : Player)
    (h : handleKeyPress tracks code r p = some q) (hq : q.playerState.isPlaying = true) :
    p.playerState.isPlaying = true := by
  unfold handleKeyPress at h
  split at h
  · injection h with h
    subst h
    exact togglePlay_isPlaying p hq
  · split at h
    · rw [← nextTrack_isPlaying tracks r p q h]
      exact hq
    · split at h
      · rw [← prevTrack_isPlaying tracks p q h]
        exact hq
      · split at h
        · rw [setVolume_playerState _ q h] at hq
          exact hq
        · split at h
          · rw [setVolume_playerState _ q h] at hq
            exact hq
          · injection h with h
            subst h
            exact hq

/-- C10, as stated, fails.  From the paused starting state: the play control is clicked (a
play is requested), the element's `play` event arrives, the control is clicked again (a
pause is issued, `isPlaying` is false), and then the pending play is confirmed: `isPlaying`
is true although the last request was the pause.  Likewise when the second click comes
before any notification: it requests a second play, and the confirmation sets `isPlaying`. -/
theorem play_pause_race_counterexample :
    (startPlayer 70).playerState.isPlaying = false ∧
    (run tracks [Event.playClick, Event.audioPlay, Event.playClick] (startPlayer 70)).map
        (fun q => (q.playerState.isPlaying, q.audioPlayer.calls, q.audioPlayer.pendingPlays))
      = some (false, [DeviceCall.load, DeviceCall.play, DeviceCall.pause], 1) ∧
    (run tracks [Event.playClick, Event.audioPlay, Event.playClick, Event.playFulfilled]
        (startPlayer 70)).map (fun q => q.playerState.isPlaying) = some true ∧
    (run tracks [Event.playClick, Event.playClick] (startPlayer 70)).map
        (fun q => (q.playerState.isPlaying, q.audioPlayer.calls, q.audioPlayer.pendingPlays))
      = some (false, [DeviceCall.load, DeviceCall.play, DeviceCall.play], 2) ∧
    (run tracks [Event.playClick, Event.playClick, Event.playFulfilled]
        (startPlayer 70)).map (fun q => q.playerState.isPlaying) = some true := by
  refine ⟨rfl, ?_, ?_, ?_, ?_⟩ <;> rfl

/-- C10 as amended: the script keeps no record of the latest requested intent.  After any
sequence of events that runs to the end, the confirmation of a play sets `isPlaying` to true,
also when a pause was issued in between.  `isPlaying` turns from false to true only in that
confirmation and in the listener of the element's `play` event: every other listener that
returns with `isPlaying` true was entered with `isPlaying` true. -/
theorem play_confirmation_sets_playing (tracks : List Track) (p : Player) :
    (∀ (es : List Event) (q : Player), run tracks es p = some q →
      ∃ q', run tracks (es ++ [Event.playFulfilled]) p = some q' ∧
        q'.playerState.isPlaying = true) ∧
    (∀ (e : Event) (q : Player), step tracks e p = some q →
      q.playerState.isPlaying = true →
      p.playerState.isPlaying = true ∨ e = Event.playFulfilled ∨ e = Event.audioPlay) := by
  constructor
  · intro es
    induction es generalizing p with
    | nil =>
      intro q _
      exact ⟨onPlayFulfilled p, rfl, rfl⟩
    | cons e es ih =>
      intro q hq
      cases hs : step tracks e p with
      | none => simp [run, hs] at hq
      | some p1 =>
        simp only [run, hs, Option.some_bind] at hq
        obtain ⟨q', hq', hp⟩ := ih p1 q hq
        exact ⟨q', by simp only [List.cons_append, run, hs, Option.some_bind]; exact hq', hp⟩
  · intro e q h hq
    cases e with
    | playClick =>
      injection h with h; subst h
      exact Or.inl (togglePlay_isPlaying p hq)
    | prevClick => exact Or.inl (by rw [← prevTrack_isPlaying tracks p q h]; exact hq)
    | nextClick r => exact Or.inl (by rw [← nextTrack_isPlaying tracks r p q h]; exact hq)
    | playlistClick index =>
      exact Or.inl (by rw [← selectTrack_isPlaying tracks _ p q h]; exact hq)
    | volumeInput x =>
      rw [setVolume_playerState _ q h] at hq
      exact Or.inl hq
    | shuffleClick => injection h with h; subst h; exact Or.inl hq
    | repeatClick => injection h with h; subst h; exact Or.inl hq
    | keydown code r => exact Or.inl (handleKeyPress_isPlaying tracks code r p q h hq)
    | audioPlay => exact Or.inr (Or.inr rfl)
    | audioPause => injection h with h; subst h; simp [onAudioPause] at hq
    | audioEnded r => exact Or.inl (handleTrackEnd_isPlaying tracks r p q h hq)
    | audioError => injection h with h; subst h; simp [handleAudioError, pauseAudio] at hq
    | playFulfilled => exact Or.inr (Or.inl rfl)
    | playRejected =>
      injection h with h; subst h
      simp [onPlayRejected, handleAudioError, pauseAudio] at hq

/-- Witness of amended C10: after a play click, the `play` event and a second click on the
script's playlist, the confirmation sets `isPlaying`. -/
theorem play_confirmation_sets_playing_witness :
    run tracks [Event.playClick, Event.audioPlay, Event.playClick] (startPlayer 70)
        = some (togglePlay (onAudioPlay (togglePlay (startPlayer 70)))) ∧
      ∃ q', run tracks
          ([Event.playClick, Event.audioPlay, Event.playClick] ++ [Event.playFulfilled])
          (startPlayer 70) = some q' ∧ q'.playerState.isPlaying = true :=
  ⟨rfl, (play_confirmation_sets_playing tracks (startPlayer 70)).1
    [Event.playClick, Event.audioPlay, Event.playClick] _ rfl⟩

end MusicPlayer
